import Mathlib

/-!
Verification of the VersionComparator / UpdateChecker component of
Mac-Audio-Remote. The repository ships only the C bridge header
`AudioRemote/Core/RustBridge.h`, which declares

  int version_compare(const char* v1, const char* v2);
    -- Returns: -1 if v1 < v2, 0 if equal, 1 if v1 > v2, -999 on error
  bool version_has_update(const char* current, const char* latest);
    -- Returns: true if latest > current, false otherwise

The comparator implementation behind these declarations is not part of the
sources, so the functions are modelled here from the specification
(VersionComparator parsing and comparison algorithm, UpdateChecker).
-/

namespace AudioRemote

/-- Modelled from the spec: a pre-release identifier is classified once, at
parse time, as numeric (a non-negative integer) or alphanumeric (a string,
kept as its character list). The implementation behind `RustBridge.h` is not
under the sources; the data model follows spec section 3. -/
inductive PreId where
  | num (n : Nat)
  | alpha (s : List Char)
deriving DecidableEq, Repr

/-- Modelled from the spec: the `ParsedVersion` entity of spec section 3 —
numeric core triplet, ordered pre-release identifiers (empty means release),
and build metadata carried but excluded from comparison. -/
structure ParsedVersion where
  major : Nat
  minor : Nat
  patch : Nat
  pre : List PreId
  build : List (List Char)
deriving DecidableEq, Repr

/-- Split a character list at the first occurrence of `c`: `some (l, r)`
with the delimiter removed, or `none` when `c` does not occur. -/
def splitFirst (c : Char) : List Char → Option (List Char × List Char)
  | [] => none
  | x :: xs =>
    if x = c then some ([], xs)
    else
      match splitFirst c xs with
      | none => none
      | some p => some (x :: p.1, p.2)

/-- Split at the first occurrence of `c`, keeping the whole list (and no
second part) when `c` does not occur. -/
def splitOpt (c : Char) (l : List Char) : List Char × Option (List Char) :=
  match splitFirst c l with
  | none => (l, none)
  | some p => (p.1, some p.2)

/-- Split a character list on every occurrence of `c` (so `n` delimiters
yield `n + 1` parts, possibly empty ones). -/
def splitAll (c : Char) : List Char → List (List Char)
  | [] => [[]]
  | x :: xs =>
    if x = c then [] :: splitAll c xs
    else
      match splitAll c xs with
      | [] => [[x]]
      | y :: ys => (x :: y) :: ys

/-- Digits to the natural number they denote in decimal. -/
def digitsToNat (l : List Char) : Nat :=
  l.foldl (fun acc c => acc * 10 + (c.toNat - 48)) 0

/-- Modelled from the spec: a numeric-core component must be non-empty, all
decimal digits, and without a leading zero unless it is exactly `0`
(spec section 4.1, parsing step 3). -/
def validCore (l : List Char) : Bool :=
  !l.isEmpty && l.all Char.isDigit && (l.head? != some '0' || l.length == 1)

/-- Modelled from the spec: a pre-release or build identifier must be
non-empty and contain only alphanumerics and hyphens (spec section 4.1,
parsing steps 4 and 5). -/
def validIdentChars (l : List Char) : Bool :=
  !l.isEmpty && l.all (fun c => c.isAlphanum || c = '-')

/-- Modelled from the spec: classify a pre-release identifier as numeric if
all characters are digits with no leading zero (unless it is exactly `0`);
otherwise alphanumeric. An identifier that looks numeric but has a leading
zero is treated as alphanumeric, not rejected (spec section 4.1, step 4). -/
def classifyPre (l : List Char) : PreId :=
  if l.all Char.isDigit && (l.head? != some '0' || l.length == 1) then
    .num (digitsToNat l)
  else
    .alpha l

/-- Everything before the first `+` of the input. -/
def stripBuild (l : List Char) : List Char :=
  (splitOpt '+' l).1

/-- The build-metadata section: everything after the first `+`, when present. -/
def buildOf (l : List Char) : Option (List Char) :=
  (splitOpt '+' l).2

/-- The numeric-core section: before the first `-` of the part before `+`. -/
def coreOf (l : List Char) : List Char :=
  (splitOpt '-' (stripBuild l)).1

/-- The pre-release section: after the first `-` of the part before `+`,
when present. -/
def preOf (l : List Char) : Option (List Char) :=
  (splitOpt '-' (stripBuild l)).2

/-- Modelled from the spec: the numeric core must be exactly three
dot-separated valid components `MAJOR.MINOR.PATCH`; any deviation is a
parse failure (spec section 4.1, step 3). -/
def parseCore (l : List Char) : Option (Nat × Nat × Nat) :=
  match splitAll '.' l with
  | [a, b, c] =>
    if validCore a && validCore b && validCore c then
      some (digitsToNat a, digitsToNat b, digitsToNat c)
    else
      none
  | _ => none

/-- Modelled from the spec: an absent pre-release section yields the empty
sequence; a present one is split on `.`, each identifier validated and
classified (spec section 4.1, steps 2 and 4). -/
def parsePreOpt : Option (List Char) → Option (List PreId)
  | none => some []
  | some p =>
    if (splitAll '.' p).all validIdentChars then
      some ((splitAll '.' p).map classifyPre)
    else
      none

/-- Modelled from the spec: an absent build section yields the empty
sequence; a present one is split on `.`, each identifier validated for
non-emptiness and alphanumeric/hyphen content (spec section 4.1, step 5). -/
def parseBuildOpt : Option (List Char) → Option (List (List Char))
  | none => some []
  | some b =>
    if (splitAll '.' b).all validIdentChars then
      some (splitAll '.' b)
    else
      none

/-- Modelled from the spec: full parser for `MAJOR.MINOR.PATCH[-PRE][+BUILD]`
— split on the first `+` for build metadata, then on the first `-` for the
pre-release section, then parse the three-part numeric core; a version
either parses completely and validly, or fails (spec section 4.1). -/
def parseVersionChars (l : List Char) : Option ParsedVersion :=
  match parseCore (coreOf l), parsePreOpt (preOf l), parseBuildOpt (buildOf l) with
  | some t, some pre, some bm => some ⟨t.1, t.2.1, t.2.2, pre, bm⟩
  | _, _, _ => none

/-- Modelled from the spec: alphanumeric identifiers compare lexically in
byte/codepoint order (spec section 4.1, comparison step 3). -/
def compareChars : List Char → List Char → Ordering
  | [], [] => .eq
  | [], _ :: _ => .lt
  | _ :: _, [] => .gt
  | c :: cs, d :: ds =>
    if c.toNat < d.toNat then .lt
    else if d.toNat < c.toNat then .gt
    else compareChars cs ds

/-- Modelled from the spec: numeric identifiers compare by integer value,
alphanumeric identifiers lexically, and a numeric identifier is always LESS
than an alphanumeric one (spec section 4.1, comparison step 3). -/
def compareIdent : PreId → PreId → Ordering
  | .num m, .num n => if m < n then .lt else if n < m then .gt else .eq
  | .num _, .alpha _ => .lt
  | .alpha _, .num _ => .gt
  | .alpha s, .alpha t => compareChars s t

/-- Modelled from the spec: identifier-by-identifier comparison of two
non-empty pre-release sequences; when all compared identifiers are equal
and one sequence is a strict prefix of the other, the shorter is LESS
(spec section 4.1, comparison step 3). -/
def comparePreSeq : List PreId → List PreId → Ordering
  | [], [] => .eq
  | [], _ :: _ => .lt
  | _ :: _, [] => .gt
  | x :: xs, y :: ys =>
    match compareIdent x y with
    | .eq => comparePreSeq xs ys
    | o => o

/-- Modelled from the spec: with an equal numeric core, an empty pre-release
sequence (a release) is GREATER than a non-empty one; two non-empty
sequences compare identifier-by-identifier (spec section 4.1, comparison
steps 2 and 3). -/
def comparePre (a b : List PreId) : Ordering :=
  match a, b with
  | [], [] => .eq
  | [], _ :: _ => .gt
  | _ :: _, [] => .lt
  | _ :: _, _ :: _ => comparePreSeq a b

/-- Modelled from the spec: compare major, then minor, then patch as
integers with the first difference deciding, then the pre-release rule;
build metadata never participates (spec section 4.1, comparison algorithm). -/
def compareParsed (a b : ParsedVersion) : Ordering :=
  if a.major < b.major then .lt
  else if b.major < a.major then .gt
  else if a.minor < b.minor then .lt
  else if b.minor < a.minor then .gt
  else if a.patch < b.patch then .lt
  else if b.patch < a.patch then .gt
  else comparePre a.pre b.pre

/-- Encoding of the tri-state ordering as the C boundary integer:
LESS is -1, EQUAL is 0, GREATER is 1. -/
def orderingToInt : Ordering → Int
  | .lt => -1
  | .eq => 0
  | .gt => 1

/-- Modelled from the spec: the boundary function declared in `RustBridge.h`
— compare two semantic version strings, returning -1, 0 or 1, and the
sentinel -999 when either input fails to parse. -/
def version_compare (v1 v2 : String) : Int :=
  match parseVersionChars v1.data, parseVersionChars v2.data with
  | some a, some b => orderingToInt (compareParsed a b)
  | _, _ => -999

/-- Modelled from the spec: the UpdateChecker declared in `RustBridge.h` —
delegates to the comparator on (latest, current) and reports true iff the
result is GREATER; any parse failure yields false (spec section 4.2). -/
def version_has_update (current latest : String) : Bool :=
  match parseVersionChars latest.data, parseVersionChars current.data with
  | some l, some c =>
    match compareParsed l c with
    | .gt => true
    | _ => false
  | _, _ => false

/-!
Reference formulation of SemVer precedence, built from lexicographic
comparator combinators, used to state and settle the refinement claim and
the order-theoretic claims (reflexivity, antisymmetry, transitivity).
-/

open Batteries

/-- Generic lexicographic comparison of lists by an element comparator:
the first non-equal position decides, a strict prefix is less. -/
def lexCmp {α : Type _} (f : α → α → Ordering) : List α → List α → Ordering
  | [], [] => .eq
  | [], _ :: _ => .lt
  | _ :: _, [] => .gt
  | x :: xs, y :: ys => (f x y).then (lexCmp f xs ys)

/-- Comparison of characters by code point. -/
abbrev charOrd : Char → Char → Ordering :=
  compareOn Char.toNat

/-- Reference comparison of pre-release identifiers: numeric by value,
alphanumeric lexically, numeric always below alphanumeric. -/
def identOrd : PreId → PreId → Ordering
  | .num m, .num n => compare m n
  | .num _, .alpha _ => .lt
  | .alpha _, .num _ => .gt
  | .alpha s, .alpha t => lexCmp charOrd s t

/-- Reference comparison of pre-release sequences: the empty sequence (a
release) is above every non-empty one; non-empty sequences compare
lexicographically by identifier. -/
def preOrd (a b : List PreId) : Ordering :=
  match a, b with
  | [], [] => .eq
  | [], _ :: _ => .gt
  | _ :: _, [] => .lt
  | _ :: _, _ :: _ => lexCmp identOrd a b

/-- The pre-release component of the reference order, as a comparator on
parsed versions. -/
def preKey (a b : ParsedVersion) : Ordering :=
  preOrd a.pre b.pre

/-- Reference SemVer precedence: major, then minor, then patch, then the
pre-release rule; build metadata does not appear. -/
def refCmp : ParsedVersion → ParsedVersion → Ordering :=
  compareLex (compareOn ParsedVersion.major)
    (compareLex (compareOn ParsedVersion.minor)
      (compareLex (compareOn ParsedVersion.patch) preKey))

theorem lexCmp_symm {α : Type _} (f : α → α → Ordering) [inst : OrientedCmp f] :
    ∀ a b : List α, (lexCmp f a b).swap = lexCmp f b a := by
  intro a
  induction a with
  | nil => intro b; cases b <;> rfl
  | cons x xs ih =>
    intro b
    cases b with
    | nil => rfl
    | cons y ys =>
      show ((f x y).then (lexCmp f xs ys)).swap = (f y x).then (lexCmp f ys xs)
      rw [Ordering.swap_then, inst.symm, ih]

theorem lexCmp_le_trans {α : Type _} (f : α → α → Ordering) [inst : TransCmp f] :
    ∀ a b c : List α, lexCmp f a b ≠ .gt → lexCmp f b c ≠ .gt → lexCmp f a c ≠ .gt := by
  intro a
  induction a with
  | nil =>
    intro b c h1 h2
    cases c <;> simp [lexCmp]
  | cons x xs ih =>
    intro b c h1 h2
    cases b with
    | nil => exact absurd rfl h1
    | cons y ys =>
      cases c with
      | nil => exact absurd rfl h2
      | cons z zs =>
        simp only [lexCmp, ne_eq, Ordering.then_eq_gt, not_or, not_and] at h1 h2 ⊢
        refine ⟨inst.le_trans h1.1 h2.1, fun e1 e2 => ?_⟩
        match ab : f x y with
        | .gt => exact h1.1 ab
        | .eq => exact ih ys zs (h1.2 ab) (h2.2 (TransCmp.cmp_congr_left ab ▸ e1)) e2
        | .lt => exact h2.1 (OrientedCmp.cmp_eq_gt.2 (TransCmp.cmp_congr_left e1 ▸ ab))

instance lexCmpOrientedInst {α : Type _} (f : α → α → Ordering) [OrientedCmp f] :
    OrientedCmp (lexCmp f) where
  symm a b := lexCmp_symm f a b

instance lexCmpTransInst {α : Type _} (f : α → α → Ordering) [TransCmp f] :
    TransCmp (lexCmp f) where
  le_trans h1 h2 := lexCmp_le_trans f _ _ _ h1 h2

theorem identOrd_symm : ∀ x y : PreId, (identOrd x y).swap = identOrd y x := by
  intro x y
  cases x with
  | num m =>
    cases y with
    | num n => exact @OrientedCmp.symm Nat compare inferInstance m n
    | alpha t => rfl
  | alpha s =>
    cases y with
    | num n => rfl
    | alpha t => exact lexCmp_symm charOrd s t

theorem identOrd_le_trans :
    ∀ x y z : PreId, identOrd x y ≠ .gt → identOrd y z ≠ .gt → identOrd x z ≠ .gt := by
  intro x y z h1 h2
  cases x with
  | num m =>
    cases z with
    | num p =>
      cases y with
      | num n => exact @TransCmp.le_trans Nat compare inferInstance m n p h1 h2
      | alpha t => exact absurd rfl h2
    | alpha u => simp [identOrd]
  | alpha s =>
    cases y with
    | num n => exact absurd rfl h1
    | alpha t =>
      cases z with
      | num p => exact absurd rfl h2
      | alpha u => exact lexCmp_le_trans charOrd s t u h1 h2

instance identOrdOrientedInst : OrientedCmp identOrd where
  symm x y := identOrd_symm x y

instance identOrdTransInst : TransCmp identOrd where
  le_trans h1 h2 := identOrd_le_trans _ _ _ h1 h2

theorem preOrd_symm : ∀ a b : List PreId, (preOrd a b).swap = preOrd b a := by
  intro a b
  cases a with
  | nil => cases b <;> rfl
  | cons x xs =>
    cases b with
    | nil => rfl
    | cons y ys => exact lexCmp_symm identOrd (x :: xs) (y :: ys)

theorem preOrd_le_trans :
    ∀ a b c : List PreId, preOrd a b ≠ .gt → preOrd b c ≠ .gt → preOrd a c ≠ .gt := by
  intro a b c h1 h2
  cases a with
  | nil =>
    cases c with
    | nil => simp [preOrd]
    | cons z zs =>
      cases b with
      | nil => exact absurd rfl h2
      | cons y ys => exact absurd rfl h1
  | cons x xs =>
    cases c with
    | nil => simp [preOrd]
    | cons z zs =>
      cases b with
      | nil => exact absurd rfl h2
      | cons y ys => exact lexCmp_le_trans identOrd (x :: xs) (y :: ys) (z :: zs) h1 h2

instance preKeyOrientedInst : OrientedCmp preKey where
  symm a b := preOrd_symm a.pre b.pre

instance preKeyTransInst : TransCmp preKey where
  le_trans h1 h2 := preOrd_le_trans _ _ _ h1 h2

instance refCmpTransInst : TransCmp refCmp :=
  inferInstanceAs (TransCmp (compareLex (compareOn ParsedVersion.major)
    (compareLex (compareOn ParsedVersion.minor)
      (compareLex (compareOn ParsedVersion.patch) preKey))))

theorem natIfCmp (m n : Nat) :
    (if m < n then Ordering.lt else if n < m then Ordering.gt else Ordering.eq) = compare m n := by
  rcases Nat.lt_trichotomy m n with h | h | h
  · rw [if_pos h]
    exact (Nat.compare_eq_lt.2 h).symm
  · subst h
    rw [if_neg (Nat.lt_irrefl m), if_neg (Nat.lt_irrefl m)]
    exact (Nat.compare_eq_eq.2 rfl).symm
  · rw [if_neg (Nat.lt_asymm h), if_pos h]
    exact (Nat.compare_eq_gt.2 h).symm

theorem compareChars_eq : ∀ s t : List Char, compareChars s t = lexCmp charOrd s t := by
  intro s
  induction s with
  | nil => intro t; cases t <;> rfl
  | cons c cs ih =>
    intro t
    cases t with
    | nil => rfl
    | cons d ds =>
      show (if c.toNat < d.toNat then Ordering.lt
            else if d.toNat < c.toNat then Ordering.gt
            else compareChars cs ds) = (compare c.toNat d.toNat).then (lexCmp charOrd cs ds)
      rcases Nat.lt_trichotomy c.toNat d.toNat with h | h | h
      · rw [if_pos h, Nat.compare_eq_lt.2 h]
        rfl
      · rw [if_neg (by omega), if_neg (by omega), Nat.compare_eq_eq.2 h]
        exact ih ds
      · rw [if_neg (Nat.lt_asymm h), if_pos h, Nat.compare_eq_gt.2 h]
        rfl

theorem compareIdent_eq : ∀ x y : PreId, compareIdent x y = identOrd x y := by
  intro x y
  cases x with
  | num m =>
    cases y with
    | num n => exact natIfCmp m n
    | alpha t => rfl
  | alpha s =>
    cases y with
    | num n => rfl
    | alpha t => exact compareChars_eq s t

theorem comparePreSeq_eq : ∀ a b : List PreId, comparePreSeq a b = lexCmp identOrd a b := by
  intro a
  induction a with
  | nil => intro b; cases b <;> rfl
  | cons x xs ih =>
    intro b
    cases b with
    | nil => rfl
    | cons y ys =>
      show (match compareIdent x y with
            | .eq => comparePreSeq xs ys
            | o => o) = (identOrd x y).then (lexCmp identOrd xs ys)
      rw [compareIdent_eq]
      cases h : identOrd x y with
      | lt => rfl
      | eq => exact ih ys
      | gt => rfl

theorem comparePre_eq : ∀ a b : List PreId, comparePre a b = preOrd a b := by
  intro a b
  cases a with
  | nil => cases b <;> rfl
  | cons x xs =>
    cases b with
    | nil => rfl
    | cons y ys => exact comparePreSeq_eq (x :: xs) (y :: ys)

theorem compareParsed_eq_refCmp (a b : ParsedVersion) : compareParsed a b = refCmp a b := by
  show compareParsed a b =
    (compare a.major b.major).then
      ((compare a.minor b.minor).then
        ((compare a.patch b.patch).then (preOrd a.pre b.pre)))
  simp only [compareParsed]
  rcases Nat.lt_trichotomy a.major b.major with h | h | h
  · rw [if_pos h, Nat.compare_eq_lt.2 h]
    rfl
  · rw [if_neg (by omega), if_neg (by omega), Nat.compare_eq_eq.2 h]
    rcases Nat.lt_trichotomy a.minor b.minor with h2 | h2 | h2
    · rw [if_pos h2, Nat.compare_eq_lt.2 h2]
      rfl
    · rw [if_neg (by omega), if_neg (by omega), Nat.compare_eq_eq.2 h2]
      rcases Nat.lt_trichotomy a.patch b.patch with h3 | h3 | h3
      · rw [if_pos h3, Nat.compare_eq_lt.2 h3]
        rfl
      · rw [if_neg (by omega), if_neg (by omega), Nat.compare_eq_eq.2 h3]
        exact comparePre_eq a.pre b.pre
      · rw [if_neg (Nat.lt_asymm h3), if_pos h3, Nat.compare_eq_gt.2 h3]
        rfl
    · rw [if_neg (Nat.lt_asymm h2), if_pos h2, Nat.compare_eq_gt.2 h2]
      rfl
  · rw [if_neg (Nat.lt_asymm h), if_pos h, Nat.compare_eq_gt.2 h]
    rfl

theorem orderingToInt_eq_neg_one (o : Ordering) : orderingToInt o = -1 ↔ o = .lt := by
  cases o <;> decide

theorem orderingToInt_eq_zero (o : Ordering) : orderingToInt o = 0 ↔ o = .eq := by
  cases o <;> decide

theorem orderingToInt_eq_one (o : Ordering) : orderingToInt o = 1 ↔ o = .gt := by
  cases o <;> decide

theorem version_compare_some {v1 v2 : String} {p q : ParsedVersion}
    (h1 : parseVersionChars v1.data = some p) (h2 : parseVersionChars v2.data = some q) :
    version_compare v1 v2 = orderingToInt (compareParsed p q) := by
  unfold version_compare
  rw [h1, h2]

theorem version_compare_none {v1 v2 : String}
    (h : parseVersionChars v1.data = none ∨ parseVersionChars v2.data = none) :
    version_compare v1 v2 = -999 := by
  unfold version_compare
  rcases h with h | h
  · rw [h]
  · rw [h]
    cases parseVersionChars v1.data <;> rfl

theorem version_has_update_some {current latest : String} {pl pc : ParsedVersion}
    (hl : parseVersionChars latest.data = some pl)
    (hc : parseVersionChars current.data = some pc) :
    version_has_update current latest =
      match compareParsed pl pc with
      | .gt => true
      | _ => false := by
  unfold version_has_update
  rw [hl, hc]

theorem version_has_update_none {current latest : String}
    (h : parseVersionChars current.data = none ∨ parseVersionChars latest.data = none) :
    version_has_update current latest = false := by
  unfold version_has_update
  rcases h with h | h
  · rw [h]
    cases parseVersionChars latest.data <;> rfl
  · rw [h]

/-- Claim C2: for every two version strings that both parse successfully,
the comparator orders them by the reference SemVer precedence definition
(major, then minor, then patch; release above pre-release; pre-release
sequences identifier-by-identifier with numeric below alphanumeric and a
strict prefix below the longer sequence; build metadata absent from the
order). -/
theorem claim_C2 (v1 v2 : String) (p1 p2 : ParsedVersion)
    (h1 : parseVersionChars v1.data = some p1) (h2 : parseVersionChars v2.data = some p2) :
    version_compare v1 v2 = orderingToInt (refCmp p1 p2) := by
  rw [version_compare_some h1 h2, compareParsed_eq_refCmp]

/-- Witness for claim C2 at a concrete pre-release comparison. -/
theorem claim_C2_witness :
    parseVersionChars ("1.2.3-alpha.1".data) =
      some ⟨1, 2, 3, [.alpha ['a', 'l', 'p', 'h', 'a'], .num 1], []⟩ ∧
    parseVersionChars ("1.2.3".data) = some ⟨1, 2, 3, [], []⟩ ∧
    version_compare "1.2.3-alpha.1" "1.2.3" =
      orderingToInt (refCmp ⟨1, 2, 3, [.alpha ['a', 'l', 'p', 'h', 'a'], .num 1], []⟩
        ⟨1, 2, 3, [], []⟩) :=
  ⟨by decide, by decide, claim_C2 "1.2.3-alpha.1" "1.2.3" _ _ (by decide) (by decide)⟩

/-- Claim C7: the comparator is antisymmetric — for valid version strings,
the first compares GREATER to the second exactly when the second compares
LESS to the first. -/
theorem claim_C7 (a b : String) (pa pb : ParsedVersion)
    (ha : parseVersionChars a.data = some pa) (hb : parseVersionChars b.data = some pb) :
    (version_compare a b = 1 ↔ version_compare b a = -1) := by
  rw [version_compare_some ha hb, version_compare_some hb ha,
    orderingToInt_eq_one, orderingToInt_eq_neg_one,
    compareParsed_eq_refCmp, compareParsed_eq_refCmp]
  have hinst : OrientedCmp refCmp := inferInstance
  exact hinst.cmp_eq_gt

/-- Witness for claim C7 at a concrete pair. -/
theorem claim_C7_witness :
    parseVersionChars ("2.0.0".data) = some ⟨2, 0, 0, [], []⟩ ∧
    parseVersionChars ("1.9.9".data) = some ⟨1, 9, 9, [], []⟩ ∧
    (version_compare "2.0.0" "1.9.9" = 1 ↔ version_compare "1.9.9" "2.0.0" = -1) :=
  ⟨by decide, by decide,
    claim_C7 "2.0.0" "1.9.9" ⟨2, 0, 0, [], []⟩ ⟨1, 9, 9, [], []⟩ (by decide) (by decide)⟩

/-- Claim C8: the comparator is transitive — for valid version strings, if
neither of the first two comparisons is GREATER then neither is the
composed one. -/
theorem claim_C8 (a b c : String) (pa pb pc : ParsedVersion)
    (ha : parseVersionChars a.data = some pa) (hb : parseVersionChars b.data = some pb)
    (hc : parseVersionChars c.data = some pc)
    (h1 : version_compare a b ≠ 1) (h2 : version_compare b c ≠ 1) :
    version_compare a c ≠ 1 := by
  rw [version_compare_some ha hb, Ne, orderingToInt_eq_one, compareParsed_eq_refCmp] at h1
  rw [version_compare_some hb hc, Ne, orderingToInt_eq_one, compareParsed_eq_refCmp] at h2
  rw [version_compare_some ha hc, Ne, orderingToInt_eq_one, compareParsed_eq_refCmp]
  have hinst : TransCmp refCmp := inferInstance
  exact hinst.le_trans h1 h2

/-- Witness for claim C8 at a concrete ascending chain. -/
theorem claim_C8_witness :
    version_compare "1.0.0-alpha" "1.0.0" ≠ 1 ∧
    version_compare "1.0.0" "1.0.1" ≠ 1 ∧
    version_compare "1.0.0-alpha" "1.0.1" ≠ 1 :=
  ⟨by decide, by decide,
    claim_C8 "1.0.0-alpha" "1.0.0" "1.0.1"
      ⟨1, 0, 0, [.alpha ['a', 'l', 'p', 'h', 'a']], []⟩ ⟨1, 0, 0, [], []⟩ ⟨1, 0, 1, [], []⟩
      (by decide) (by decide) (by decide) (by decide) (by decide)⟩

/-- Claim C9: the comparator is reflexive — every valid version string
compares EQUAL to itself. -/
theorem claim_C9 (v : String) (p : ParsedVersion)
    (h : parseVersionChars v.data = some p) :
    version_compare v v = 0 := by
  rw [version_compare_some h h, orderingToInt_eq_zero, compareParsed_eq_refCmp]
  have hinst : OrientedCmp refCmp := inferInstance
  exact hinst.cmp_refl

/-- Witness for claim C9 at a concrete version with pre-release part. -/
theorem claim_C9_witness :
    parseVersionChars ("1.4.2-rc.1".data) =
      some ⟨1, 4, 2, [.alpha ['r', 'c'], .num 1], []⟩ ∧
    version_compare "1.4.2-rc.1" "1.4.2-rc.1" = 0 :=
  ⟨by decide,
    claim_C9 "1.4.2-rc.1" ⟨1, 4, 2, [.alpha ['r', 'c'], .num 1], []⟩ (by decide)⟩

theorem splitFirst_of_not_mem {c : Char} {l : List Char} (h : c ∉ l) :
    splitFirst c l = none := by
  induction l with
  | nil => rfl
  | cons x xs ih =>
    simp only [List.mem_cons, not_or] at h
    simp only [splitFirst]
    rw [if_neg (fun he => h.1 he.symm), ih h.2]

theorem splitFirst_append {c : Char} {l r : List Char} (h : c ∉ l) :
    splitFirst c (l ++ c :: r) = some (l, r) := by
  induction l with
  | nil => simp [splitFirst]
  | cons x xs ih =>
    simp only [List.mem_cons, not_or] at h
    show splitFirst c (x :: (xs ++ c :: r)) = some (x :: xs, r)
    simp only [splitFirst]
    rw [if_neg (fun he => h.1 he.symm), ih h.2]

theorem parse_append_build {a X : List Char} {p : ParsedVersion}
    (hp : parseVersionChars a = some p) (hplus : '+' ∉ a)
    (hX : (splitAll '.' X).all validIdentChars = true) :
    parseVersionChars (a ++ '+' :: X) =
      some ⟨p.major, p.minor, p.patch, p.pre, splitAll '.' X⟩ := by
  have hsb : stripBuild (a ++ '+' :: X) = a := by
    unfold stripBuild splitOpt
    rw [splitFirst_append hplus]
  have hbo : buildOf (a ++ '+' :: X) = some X := by
    unfold buildOf splitOpt
    rw [splitFirst_append hplus]
  have hsa : stripBuild a = a := by
    unfold stripBuild splitOpt
    rw [splitFirst_of_not_mem hplus]
  have hba : buildOf a = none := by
    unfold buildOf splitOpt
    rw [splitFirst_of_not_mem hplus]
  have hco : coreOf (a ++ '+' :: X) = coreOf a := by
    unfold coreOf
    rw [hsb, hsa]
  have hpo : preOf (a ++ '+' :: X) = preOf a := by
    unfold preOf
    rw [hsb, hsa]
  unfold parseVersionChars at hp ⊢
  rw [hco, hpo, hbo]
  cases hc : parseCore (coreOf a) with
  | none => rw [hc] at hp; simp at hp
  | some t =>
    cases hpre : parsePreOpt (preOf a) with
    | none => rw [hc, hpre] at hp; simp at hp
    | some pre =>
      rw [hc, hpre, hba] at hp
      have hp' : p = ⟨t.1, t.2.1, t.2.2, pre, []⟩ := (Option.some.inj hp).symm
      subst hp'
      have hb2 : parseBuildOpt (some X) = some (splitAll '.' X) := by
        show (if (splitAll '.' X).all validIdentChars = true then some (splitAll '.' X)
              else none) = some (splitAll '.' X)
        rw [if_pos hX]
      rw [hb2]

theorem compareParsed_eqFields (v w : ParsedVersion) (h1 : v.major = w.major)
    (h2 : v.minor = w.minor) (h3 : v.patch = w.patch) (h4 : v.pre = w.pre) :
    compareParsed v w = .eq := by
  unfold compareParsed
  rw [h1, h2, h3, h4]
  simp only [Nat.lt_irrefl, if_false]
  rw [comparePre_eq]
  cases hw : w.pre with
  | nil => rfl
  | cons x xs =>
    have hinst : OrientedCmp (lexCmp identOrd) := inferInstance
    exact hinst.cmp_refl

/-- Claim C6: build metadata never affects the result — appending any two
valid build-metadata suffixes to the same valid base version yields EQUAL. -/
theorem claim_C6 (a X Y : String) (p : ParsedVersion)
    (hp : parseVersionChars a.data = some p)
    (hplus : '+' ∉ a.data)
    (hX : (splitAll '.' X.data).all validIdentChars = true)
    (hY : (splitAll '.' Y.data).all validIdentChars = true) :
    version_compare (a ++ "+" ++ X) (a ++ "+" ++ Y) = 0 := by
  have hdX : (a ++ "+" ++ X).data = a.data ++ '+' :: X.data := by
    simp
  have hdY : (a ++ "+" ++ Y).data = a.data ++ '+' :: Y.data := by
    simp
  have h1 : parseVersionChars ((a ++ "+" ++ X).data) =
      some ⟨p.major, p.minor, p.patch, p.pre, splitAll '.' X.data⟩ := by
    rw [hdX]
    exact parse_append_build hp hplus hX
  have h2 : parseVersionChars ((a ++ "+" ++ Y).data) =
      some ⟨p.major, p.minor, p.patch, p.pre, splitAll '.' Y.data⟩ := by
    rw [hdY]
    exact parse_append_build hp hplus hY
  rw [version_compare_some h1 h2,
    compareParsed_eqFields ⟨p.major, p.minor, p.patch, p.pre, splitAll '.' X.data⟩
      ⟨p.major, p.minor, p.patch, p.pre, splitAll '.' Y.data⟩ rfl rfl rfl rfl]
  rfl

/-- Witness for claim C6 at a concrete base and two metadata strings. -/
theorem claim_C6_witness :
    parseVersionChars ("1.0.0".data) = some ⟨1, 0, 0, [], []⟩ ∧
    version_compare ("1.0.0" ++ "+" ++ "abc") ("1.0.0" ++ "+" ++ "zz.1") = 0 :=
  ⟨by decide,
    claim_C6 "1.0.0" "abc" "zz.1" ⟨1, 0, 0, [], []⟩
      (by decide) (by decide) (by decide) (by decide)⟩

/-- Claim C1: the update check agrees with testing the comparator applied to
(latest, current) for the integer encoding of GREATER, and it is true exactly
when latest strictly exceeds current under the reference SemVer precedence. -/
theorem claim_C1 (current latest : String) :
    (version_has_update current latest = true ↔ version_compare latest current = 1) ∧
    (version_has_update current latest = true ↔
      ∃ pl pc, parseVersionChars latest.data = some pl ∧
        parseVersionChars current.data = some pc ∧ refCmp pl pc = .gt) := by
  cases hl : parseVersionChars latest.data with
  | none =>
    rw [version_has_update_none (Or.inr hl), version_compare_none (Or.inl hl)]
    exact ⟨by simp, by simp⟩
  | some pl =>
    cases hc : parseVersionChars current.data with
    | none =>
      rw [version_has_update_none (Or.inl hc), version_compare_none (Or.inr hc)]
      exact ⟨by simp, by simp⟩
    | some pc =>
      rw [version_has_update_some hl hc, version_compare_some hl hc]
      have hr : refCmp pl pc = compareParsed pl pc := (compareParsed_eq_refCmp pl pc).symm
      cases hcmp : compareParsed pl pc <;> rw [hcmp] at hr <;>
        simp [orderingToInt, hr]

/-- Claim C3: the comparator returns the sentinel -999 exactly when either
input fails to parse, and its result is always one of -1, 0, 1 or -999. -/
theorem claim_C3 (s t : String) :
    (version_compare s t = -999 ↔
      (parseVersionChars s.data = none ∨ parseVersionChars t.data = none)) ∧
    (version_compare s t = -1 ∨ version_compare s t = 0 ∨
      version_compare s t = 1 ∨ version_compare s t = -999) := by
  cases hs : parseVersionChars s.data with
  | none =>
    rw [version_compare_none (Or.inl hs)]
    exact ⟨by simp, Or.inr (Or.inr (Or.inr rfl))⟩
  | some p =>
    cases ht : parseVersionChars t.data with
    | none =>
      rw [version_compare_none (Or.inr ht)]
      exact ⟨by simp, Or.inr (Or.inr (Or.inr rfl))⟩
    | some q =>
      rw [version_compare_some hs ht]
      cases hcm : compareParsed p q
      · exact ⟨⟨fun h => absurd h (by decide), fun h => by rcases h with h | h <;> simp at h⟩,
          Or.inl rfl⟩
      · exact ⟨⟨fun h => absurd h (by decide), fun h => by rcases h with h | h <;> simp at h⟩,
          Or.inr (Or.inl rfl)⟩
      · exact ⟨⟨fun h => absurd h (by decide), fun h => by rcases h with h | h <;> simp at h⟩,
          Or.inr (Or.inr (Or.inl rfl))⟩

/-- Well-formedness of the numeric core prefix of an input: the part before
any `-` or `+` splits into exactly three dot-separated components, each a
valid decimal component without leading zero. -/
def CoreWF (l : List Char) : Prop :=
  (splitAll '.' (coreOf l)).length = 3 ∧ ∀ x ∈ splitAll '.' (coreOf l), validCore x = true

instance (l : List Char) : Decidable (CoreWF l) :=
  inferInstanceAs (Decidable ((splitAll '.' (coreOf l)).length = 3 ∧
    ∀ x ∈ splitAll '.' (coreOf l), validCore x = true))

theorem parseCore_some_wf {l : List Char} {t : Nat × Nat × Nat} (h : parseCore l = some t) :
    (splitAll '.' l).length = 3 ∧ ∀ x ∈ splitAll '.' l, validCore x = true := by
  unfold parseCore at h
  cases hs : splitAll '.' l with
  | nil => rw [hs] at h; simp at h
  | cons a rest =>
    cases rest with
    | nil => rw [hs] at h; simp at h
    | cons b rest2 =>
      cases rest2 with
      | nil => rw [hs] at h; simp at h
      | cons cc rest3 =>
        cases rest3 with
        | cons d rest4 => rw [hs] at h; simp at h
        | nil =>
          rw [hs] at h
          by_cases hcond : (validCore a && validCore b && validCore cc) = true
          · simp only [Bool.and_eq_true] at hcond
            refine ⟨rfl, ?_⟩
            intro x hx
            simp only [List.mem_cons, List.not_mem_nil, or_false] at hx
            rcases hx with rfl | rfl | rfl
            · exact hcond.1.1
            · exact hcond.1.2
            · exact hcond.2
          · simp [hcond] at h

theorem parse_none_of_not_coreWF {l : List Char} (h : ¬ CoreWF l) :
    parseVersionChars l = none := by
  cases hp : parseCore (coreOf l) with
  | none =>
    unfold parseVersionChars
    rw [hp]
  | some t => exact absurd ⟨(parseCore_some_wf hp).1, (parseCore_some_wf hp).2⟩ h

/-- Claim C4: parsing accepts the numeric core only when the prefix before
any `-` or `+` is exactly three dot-separated valid decimal components (no
leading zero unless the component is `0`); any deviation makes the
comparator return the sentinel, and in particular a leading zero does. -/
theorem claim_C4 :
    (∀ (s t : String), ¬ CoreWF s.data → version_compare s t = -999) ∧
    version_compare "1.02.0" "1.0.0" = -999 := by
  constructor
  · intro s t h
    exact version_compare_none (Or.inl (parse_none_of_not_coreWF h))
  · decide

/-- Witness for claim C4 at a concrete malformed input (two components). -/
theorem claim_C4_witness :
    ¬ CoreWF ("1.2".data) ∧ version_compare "1.2" "1.0.0" = -999 :=
  ⟨by decide, claim_C4.1 "1.2" "1.0.0" (by decide)⟩

/-- Claim C5: a malformed string on either side makes the update check
return false, and in particular a malformed current version does. -/
theorem claim_C5 :
    (∀ (current latest : String),
      parseVersionChars current.data = none ∨ parseVersionChars latest.data = none →
      version_has_update current latest = false) ∧
    version_has_update "bogus" "1.0.0" = false := by
  constructor
  · intro current latest h
    exact version_has_update_none h
  · decide

/-- Witness for claim C5 at the concrete malformed current version. -/
theorem claim_C5_witness :
    parseVersionChars ("bogus".data) = none ∧ version_has_update "bogus" "1.0.0" = false :=
  ⟨by decide, claim_C5.1 "bogus" "1.0.0" (Or.inl (by decide))⟩

/-- Claim C10: the comparator's integer encoding is fixed with respect to
its argument order — -1 exactly when the first argument precedes the
second, 0 exactly on equality, 1 exactly when it exceeds it, -999 on a
parse failure, and no other integer is ever returned. -/
theorem claim_C10 (s t : String) :
    (∀ p q : ParsedVersion, parseVersionChars s.data = some p →
      parseVersionChars t.data = some q →
      ((version_compare s t = -1 ↔ compareParsed p q = .lt) ∧
       (version_compare s t = 0 ↔ compareParsed p q = .eq) ∧
       (version_compare s t = 1 ↔ compareParsed p q = .gt))) ∧
    ((parseVersionChars s.data = none ∨ parseVersionChars t.data = none) →
      version_compare s t = -999) ∧
    (version_compare s t = -1 ∨ version_compare s t = 0 ∨
      version_compare s t = 1 ∨ version_compare s t = -999) := by
  refine ⟨?_, version_compare_none, ?_⟩
  · intro p q hp hq
    rw [version_compare_some hp hq]
    exact ⟨orderingToInt_eq_neg_one _, orderingToInt_eq_zero _, orderingToInt_eq_one _⟩
  · cases hs : parseVersionChars s.data with
    | none =>
      rw [version_compare_none (Or.inl hs)]
      exact Or.inr (Or.inr (Or.inr rfl))
    | some p =>
      cases ht : parseVersionChars t.data with
      | none =>
        rw [version_compare_none (Or.inr ht)]
        exact Or.inr (Or.inr (Or.inr rfl))
      | some q =>
        rw [version_compare_some hs ht]
        cases compareParsed p q
        · exact Or.inl rfl
        · exact Or.inr (Or.inl rfl)
        · exact Or.inr (Or.inr (Or.inl rfl))

/-- Witness for claim C10 at a concrete ordered pair. -/
theorem claim_C10_witness :
    parseVersionChars ("1.0.0".data) = some ⟨1, 0, 0, [], []⟩ ∧
    parseVersionChars ("2.0.0".data) = some ⟨2, 0, 0, [], []⟩ ∧
    ((version_compare "1.0.0" "2.0.0" = -1 ↔
        compareParsed ⟨1, 0, 0, [], []⟩ ⟨2, 0, 0, [], []⟩ = .lt) ∧
     (version_compare "1.0.0" "2.0.0" = 0 ↔
        compareParsed ⟨1, 0, 0, [], []⟩ ⟨2, 0, 0, [], []⟩ = .eq) ∧
     (version_compare "1.0.0" "2.0.0" = 1 ↔
        compareParsed ⟨1, 0, 0, [], []⟩ ⟨2, 0, 0, [], []⟩ = .gt)) :=
  ⟨by decide, by decide,
    (claim_C10 "1.0.0" "2.0.0").1 ⟨1, 0, 0, [], []⟩ ⟨2, 0, 0, [], []⟩ (by decide) (by decide)⟩

end AudioRemote
